import Mathlib

/-!
Shallow embedding of the data-transformation core of `src/app.py`
(a Streamlit dashboard over the CKAN datastore-search API), together with
proofs of the specification's testable properties.

Modelling conventions:
* a cell is a `String` (CKAN rows arrive as JSON text; `astype(str)` is applied
  before every cleaning pipeline in the source);
* numeric values produced by `pd.to_numeric` are modelled as `ℚ`;
* a missing value (`NaN`) is `Option.none`;
* `pd.to_datetime` is modelled on ISO `YYYY-MM-DD` strings.
-/

namespace App

/-! ### Column-label normalization (`fetch_ckan`, src/app.py lines 74-80) -/

/-- Whitespace as matched by the regex `\s` on ASCII input:
space, tab, newline, vertical tab, form feed, carriage return. -/
def isWs (c : Char) : Bool :=
  c == ' ' || c == '\t' || c == '\n' || c == '\x0b' || c == '\x0c' || c == '\r'

/-- The character class `[0-9a-zA-Z_]` kept by the replacement
`.str.replace(r"[^0-9a-zA-Z_]", "", regex=True)`. -/
def isWordChar (c : Char) : Bool :=
  (48 ≤ c.toNat && c.toNat ≤ 57) ||    -- 0-9
  (97 ≤ c.toNat && c.toNat ≤ 122) ||   -- a-z
  (65 ≤ c.toNat && c.toNat ≤ 90) ||    -- A-Z
  c == '_'

/-- A fully-normalized character: lowercase ASCII letter, digit, or underscore. -/
def isNormChar (c : Char) : Bool :=
  (48 ≤ c.toNat && c.toNat ≤ 57) ||    -- 0-9
  (97 ≤ c.toNat && c.toNat ≤ 122) ||   -- a-z
  c == '_'

/-- `.str.strip()`: remove leading and trailing whitespace. -/
def stripChars (l : List Char) : List Char :=
  ((l.dropWhile isWs).reverse.dropWhile isWs).reverse

/-- `.str.replace(r"\s+", "_", regex=True)`: every maximal run of whitespace
becomes a single underscore.  `prevWs` records whether the previous character
belonged to a whitespace run already rewritten to `_`. -/
def collapseWsAux : Bool → List Char → List Char
  | _, [] => []
  | prevWs, c :: rest =>
    if isWs c then
      if prevWs then collapseWsAux true rest
      else '_' :: collapseWsAux true rest
    else c :: collapseWsAux false rest

def collapseWs (l : List Char) : List Char := collapseWsAux false l

/-- Column-label normalization applied by `fetch_ckan` (src/app.py lines 74-80):
`str` conversion, `.str.strip()`, whitespace runs → `_`, drop every character
outside `[0-9a-zA-Z_]`, then `.str.lower()` (at that point only ASCII remains,
so `Char.toLower` coincides with Python `lower`). -/
def normalizeLabel (s : String) : String :=
  ⟨((collapseWs (stripChars s.data)).filter isWordChar).map Char.toLower⟩

/-! Character-level lemmas for the normalizer. -/

lemma isNormChar_toLower_of_isWordChar {c : Char} (h : isWordChar c = true) :
    isNormChar c.toLower = true := by
  simp only [isWordChar, Bool.or_eq_true, Bool.and_eq_true, decide_eq_true_eq,
    beq_iff_eq] at h
  simp only [Char.toLower]
  split
  · rename_i hrange
    obtain ⟨h1, h2⟩ := hrange
    clear h
    generalize c.toNat = n at h1 h2 ⊢
    interval_cases n <;> decide
  · rename_i hrange
    simp only [isNormChar, Bool.or_eq_true, Bool.and_eq_true, decide_eq_true_eq,
      beq_iff_eq]
    rcases h with ((h | h) | h) | h
    · exact Or.inl (Or.inl h)
    · exact Or.inl (Or.inr h)
    · exact absurd ⟨h.1, h.2⟩ hrange
    · exact Or.inr h

lemma toLower_eq_self_of_isNormChar {c : Char} (h : isNormChar c = true) :
    c.toLower = c := by
  simp only [isNormChar, Bool.or_eq_true, Bool.and_eq_true, decide_eq_true_eq,
    beq_iff_eq] at h
  simp only [Char.toLower]
  split
  · rename_i hrange
    exfalso
    rcases h with (h | h) | rfl
    · omega
    · omega
    · exact absurd hrange (by decide)
  · rfl

lemma isWordChar_of_isNormChar {c : Char} (h : isNormChar c = true) :
    isWordChar c = true := by
  simp only [isNormChar, Bool.or_eq_true, Bool.and_eq_true, decide_eq_true_eq,
    beq_iff_eq] at h
  simp only [isWordChar, Bool.or_eq_true, Bool.and_eq_true, decide_eq_true_eq,
    beq_iff_eq]
  rcases h with (h | h) | h
  · exact Or.inl (Or.inl (Or.inl h))
  · exact Or.inl (Or.inl (Or.inr h))
  · exact Or.inr h

lemma not_isWs_of_isNormChar {c : Char} (h : isNormChar c = true) :
    isWs c = false := by
  rw [Bool.eq_false_iff]
  intro hws
  simp only [isWs, Bool.or_eq_true, beq_iff_eq] at hws
  rcases hws with ((((rfl | rfl) | rfl) | rfl) | rfl) | rfl <;> revert h <;> decide

lemma mem_normalizeLabel_isNormChar (s : String) :
    ∀ c ∈ (normalizeLabel s).data, isNormChar c = true := by
  intro c hc
  simp only [normalizeLabel, List.mem_map] at hc
  obtain ⟨d, hd, rfl⟩ := hc
  exact isNormChar_toLower_of_isWordChar (List.of_mem_filter hd)

lemma dropWhile_isWs_eq_self {l : List Char} (h : ∀ c ∈ l, isWs c = false) :
    l.dropWhile isWs = l := by
  cases l with
  | nil => rfl
  | cons c t =>
    rw [List.dropWhile_cons]
    simp [h c (List.mem_cons_self c t)]

lemma stripChars_eq_self {l : List Char} (h : ∀ c ∈ l, isWs c = false) :
    stripChars l = l := by
  unfold stripChars
  rw [dropWhile_isWs_eq_self h,
    dropWhile_isWs_eq_self (fun c hc => h c (List.mem_reverse.mp hc)),
    List.reverse_reverse]

lemma collapseWsAux_eq_self (b : Bool) {l : List Char}
    (h : ∀ c ∈ l, isWs c = false) : collapseWsAux b l = l := by
  induction l generalizing b with
  | nil => rfl
  | cons c t ih =>
    simp only [collapseWsAux, h c (List.mem_cons_self c t), Bool.false_eq_true,
      if_false]
    rw [ih false (fun d hd => h d (List.mem_cons_of_mem c hd))]

lemma normalizeLabel_eq_self_of_norm {t : String}
    (h : ∀ c ∈ t.data, isNormChar c = true) : normalizeLabel t = t := by
  unfold normalizeLabel collapseWs
  rw [stripChars_eq_self (fun c hc => not_isWs_of_isNormChar (h c hc)),
    collapseWsAux_eq_self false (fun c hc => not_isWs_of_isNormChar (h c hc)),
    List.filter_eq_self.mpr (fun c hc => isWordChar_of_isNormChar (h c hc)),
    List.map_congr_left (fun c hc => toLower_eq_self_of_isNormChar (h c hc))]
  cases t
  simp

/-- C4: column-label normalization is idempotent — normalizing an
already-normalized label yields that same label unchanged. -/
theorem normalizeLabel_idempotent (s : String) :
    normalizeLabel (normalizeLabel s) = normalizeLabel s :=
  normalizeLabel_eq_self_of_norm (mem_normalizeLabel_isNormChar s)

/-! ### Record sets, `fetch_ckan` and the run handler (src/app.py lines 58-127) -/

/-- A tabular record set: column labels plus rows of cell strings. -/
structure RecordSet where
  columns : List String
  rows : List (List String)
deriving DecidableEq

/-- Post-processing of `fetch_ckan` (src/app.py lines 67-81) after the JSON
records have been placed in a frame: an empty frame is returned as is
(`if df.empty: return df`); otherwise every column label is normalized. -/
def fetch_ckan (raw : RecordSet) : RecordSet :=
  if raw.rows.isEmpty then raw
  else { raw with columns := raw.columns.map normalizeLabel }

/-- The message shown by the run handler. -/
inductive RunMsg
  | warnNoResourceId
  | warnNoData
  | success
deriving DecidableEq

/-- The "Consultar API" handler (src/app.py lines 113-127): an empty
`resource_id` warns and stops; an empty fetch result warns "Sin datos" and
stops without touching the session slot; only a non-empty result is stored
into `st.session_state.df`.  `st.stop` is an ordinary control-flow halt, so
every branch returns a value — nothing raises. -/
def runHandler (resourceId : String) (prior : Option RecordSet)
    (raw : RecordSet) : Option RecordSet × RunMsg :=
  if resourceId = "" then (prior, RunMsg.warnNoResourceId)
  else
    let df := fetch_ckan raw
    if df.rows.isEmpty then (prior, RunMsg.warnNoData)
    else (some df, RunMsg.success)

lemma fetch_ckan_rows (raw : RecordSet) : (fetch_ckan raw).rows = raw.rows := by
  unfold fetch_ckan
  split <;> rfl

/-- C3: an empty fetch result produces the "no data" warning (not an
exception) and leaves the session slot exactly as it was — it never
overwrites a previously stored record set. -/
theorem emptyFetch_preserves_slot (resourceId : String)
    (prior : Option RecordSet) (raw : RecordSet)
    (hrid : resourceId ≠ "") (hempty : raw.rows = []) :
    runHandler resourceId prior raw = (prior, RunMsg.warnNoData) := by
  unfold runHandler
  rw [if_neg hrid]
  simp [fetch_ckan_rows, hempty]

/-- Witness for C3 at a concrete input: with a record set already stored,
an empty fetch keeps that record set in the slot and reports "no data". -/
theorem emptyFetch_preserves_slot_witness :
    runHandler "rid1" (some ⟨["a"], [["1"]]⟩) ⟨[], []⟩ =
      (some ⟨["a"], [["1"]]⟩, RunMsg.warnNoData) :=
  emptyFetch_preserves_slot "rid1" (some ⟨["a"], [["1"]]⟩) ⟨[], []⟩
    (by decide) rfl

/-- C5: whenever the run handler stores a record set, its column labels are
exactly the raw labels each normalized once, and every stored label consists
only of lowercase ASCII letters, digits, and underscores. -/
theorem stored_columns_normalized (resourceId : String)
    (prior : Option RecordSet) (raw df : RecordSet)
    (h : runHandler resourceId prior raw = (some df, RunMsg.success)) :
    df.columns = raw.columns.map normalizeLabel ∧
    ∀ l ∈ df.columns, ∀ c ∈ l.data, isNormChar c = true := by
  unfold runHandler at h
  split at h
  · simp at h
  · cases hE : (fetch_ckan raw).rows.isEmpty with
    | true => simp [hE] at h
    | false =>
      simp only [hE, Bool.false_eq_true, if_false, Prod.mk.injEq,
        Option.some.injEq] at h
      have hdf : df = fetch_ckan raw := h.1.symm
      have hrows : raw.rows.isEmpty = false := by
        rw [fetch_ckan_rows] at hE
        exact hE
      subst hdf
      unfold fetch_ckan
      rw [if_neg (by simp [hrows])]
      refine ⟨rfl, ?_⟩
      intro l hl c hc
      simp only [List.mem_map] at hl
      obtain ⟨l0, _, rfl⟩ := hl
      exact mem_normalizeLabel_isNormChar l0 c hc

/-- Witness for C5 at a concrete input: the label `" A  B%c "` is stored as
`"a_bc"`, which contains only lowercase letters, digits, underscores. -/
theorem stored_columns_normalized_witness :
    (fetch_ckan ⟨[" A  B%c "], [["1"]]⟩).columns =
        [" A  B%c "].map normalizeLabel ∧
      ∀ l ∈ (fetch_ckan ⟨[" A  B%c "], [["1"]]⟩).columns,
        ∀ c ∈ l.data, isNormChar c = true :=
  stored_columns_normalized "rid1" none ⟨[" A  B%c "], [["1"]]⟩
    (fetch_ckan ⟨[" A  B%c "], [["1"]]⟩) (by decide)

/-! ### Numeric cleaning and coercion
(src/app.py lines 198-207, 220-225, 279-288, 308-313) -/

/-- The character class kept by `.str.replace(r"[^\d,.\-]", "", regex=True)`:
digits, comma, period, minus. -/
def isNumKeep (c : Char) : Bool :=
  (48 ≤ c.toNat && c.toNat ≤ 57) || c == ',' || c == '.' || c == '-'

/-- The cleaning pipeline applied to every candidate or value cell: keep only
digits, comma, period, minus, then `.str.replace(",", ".")` — every comma
becomes a period. -/
def cleanCell (s : String) : String :=
  ⟨(s.data.filter isNumKeep).map (fun c => if c == ',' then '.' else c)⟩

def isDigitChar (c : Char) : Bool := 48 ≤ c.toNat && c.toNat ≤ 57

def natOfDigits (l : List Char) : Nat :=
  l.foldl (fun acc c => 10 * acc + (c.toNat - 48)) 0

/-- Model of `pd.to_numeric` on a cleaned cell (whose alphabet is digits,
`.`, `-`): an optional leading minus sign, then a body of digits containing
at most one decimal point and at least one digit; any other shape fails.
The parsed value is exact, as a rational. -/
def parseNumeric (s : String) : Option ℚ :=
  let core : List Char → Bool → Option ℚ := fun body neg =>
    if body.all (fun c => isDigitChar c || c == '.')
        && decide (body.count '.' ≤ 1)
        && body.any isDigitChar then
      let intPart := body.takeWhile (fun c => !(c == '.'))
      let fracPart := (body.dropWhile (fun c => !(c == '.'))).drop 1
      let mag : ℚ :=
        (natOfDigits (intPart ++ fracPart) : ℚ) / ((10 : ℚ) ^ fracPart.length)
      some (if neg then -mag else mag)
    else none
  match s.data with
  | '-' :: t => core t true
  | l => core l false

/-- Per-cell coercion as performed with `errors="coerce"`: an unparseable
cell becomes a missing value. -/
def toNumericOpt (s : String) : Option ℚ := parseNumeric (cleanCell s)

/-- Column-level numeric-convertible detection as performed with
`errors="raise"` inside `try/except` (src/app.py lines 195-207): the column
qualifies iff every cleaned cell parses with zero failures. -/
def convertibleCol (col : List String) : Bool :=
  col.all (fun v => (toNumericOpt v).isSome)

/-- Numeric coercion of a selected value column (src/app.py lines 220-225):
clean and convert each cell independently, unparseable cells becoming
missing values. -/
def coerceValues (col : List String) : List (Option ℚ) :=
  col.map toNumericOpt

/-- Counterexample to C2 as stated: the single-cell column `["1.234,56"]`
does NOT pass the numeric-convertible test, because the cleaned form is
`"1.234.56"`, which fails numeric parsing. -/
theorem convertible_claim_counterexample :
    convertibleCol ["1.234,56"] = false := by decide

/-- C2 (amended): `"1234.56"` is classified as convertible (to the exact
value 1234.56), while `"1.234,56"` is not: stripping keeps it unchanged and
comma→period yields `"1.234.56"`, which has two decimal points and fails
numeric parsing, so the column is disqualified. -/
theorem convertible_amended :
    convertibleCol ["1234.56"] = true ∧
    toNumericOpt "1234.56" = some (123456 / 100 : ℚ) ∧
    cleanCell "1.234,56" = "1.234.56" ∧
    toNumericOpt "1.234,56" = none ∧
    convertibleCol ["1.234,56"] = false := by
  refine ⟨by decide, ?_, by decide, by decide, by decide⟩
  simp +decide [toNumericOpt, parseNumeric, cleanCell, natOfDigits]
  norm_num

/-- C7: numeric coercion of a value column is per-cell — the column keeps
its length, each position holds exactly the cleaned-and-parsed value of the
corresponding input cell, and a cell whose cleaned string fails to parse
becomes a missing value without affecting any other cell. -/
theorem coerce_per_cell (col : List String) (i : Nat) (v : String)
    (h : col[i]? = some v) :
    (coerceValues col).length = col.length ∧
    (coerceValues col)[i]? = some (toNumericOpt v) ∧
    (toNumericOpt v = none → (coerceValues col)[i]? = some none) := by
  refine ⟨List.length_map _ _, ?_, ?_⟩
  · rw [coerceValues, List.getElem?_map, h, Option.map_some']
  · intro hnone
    rw [coerceValues, List.getElem?_map, h, Option.map_some', hnone]

/-- Witness for C7 at a concrete input: in the column `["abc", "1,5"]` the
first cell fails to parse and becomes missing, while the second cell is
still converted (to 1.5). -/
theorem coerce_per_cell_witness :
    (coerceValues ["abc", "1,5"]).length = 2 ∧
    (coerceValues ["abc", "1,5"])[0]? = some none ∧
    (coerceValues ["abc", "1,5"])[1]? = some (some (3 / 2 : ℚ)) := by
  refine ⟨(coerce_per_cell ["abc", "1,5"] 0 "abc" rfl).1, ?_, ?_⟩
  · exact (coerce_per_cell ["abc", "1,5"] 0 "abc" rfl).2.2 (by decide)
  · rw [(coerce_per_cell ["abc", "1,5"] 1 "1,5" rfl).2.1]
    simp +decide [toNumericOpt, parseNumeric, cleanCell, natOfDigits]
    norm_num

/-! ### Categorical-key aggregation (src/app.py lines 228-240 and 335-344) -/

/-- Keys of first occurrence, in first-occurrence order (`seen` accumulates
the keys already emitted). -/
def dedupFirstAux (seen : List String) : List String → List String
  | [] => []
  | x :: xs =>
    if x ∈ seen then dedupFirstAux seen xs
    else x :: dedupFirstAux (x :: seen) xs

/-- The distinct keys of the grouped column, sorted ascending by code point —
`groupby` sorts its group keys. -/
def distinctKeys (rows : List (String × Option ℚ)) : List String :=
  List.insertionSort (· ≤ ·) (dedupFirstAux [] (rows.map Prod.fst))

/-- `df_num.groupby(x_col)[y_col].sum()`: per distinct key, the sum of the
non-missing coerced values (`0` when the group has none — pandas sums with
`skipna` and `min_count=0`). -/
def groupSum (rows : List (String × Option ℚ)) : List (String × ℚ) :=
  (distinctKeys rows).map fun k =>
    (k, ((rows.filter (fun r => decide (r.1 = k))).filterMap Prod.snd).sum)

/-- `df_num.groupby(x_col)[y_col].mean()`: per distinct key, the arithmetic
mean of the non-missing coerced values (missing when the group has none). -/
def groupMean (rows : List (String × Option ℚ)) : List (String × Option ℚ) :=
  (distinctKeys rows).map fun k =>
    let vs := (rows.filter (fun r => decide (r.1 = k))).filterMap Prod.snd
    (k, if vs.length = 0 then none else some (vs.sum / (vs.length : ℚ)))

/-- `drop_duplicates(subset=[x_col], keep="first")` on the key column:
keep each row whose key has not been seen yet, in original row order. -/
def dropDupKeys (seen : List String) : List (String × ℚ) → List (String × ℚ)
  | [] => []
  | r :: rest =>
    if r.1 ∈ seen then dropDupKeys seen rest
    else r :: dropDupKeys (r.1 :: seen) rest

/-- `dropna(subset=[y_col]).drop_duplicates(subset=[x_col], keep="first")`,
then read off the (key, value) series: first non-missing value per key. -/
def firstCombine (rows : List (String × Option ℚ)) : List (String × ℚ) :=
  dropDupKeys [] (rows.filterMap (fun r => r.2.map (fun v => (r.1, v))))

/-- The two selected columns of Gráfico 1 after Y-coercion: each raw row
`(x cell, y cell)` becomes `(key, cleaned-and-parsed value)`. -/
def chart1Rows (raws : List (String × String)) : List (String × Option ℚ) :=
  raws.map (fun r => (r.1, toNumericOpt r.2))

/-- C1: on the rows `[("A","10"), ("A","20"), ("B","5")]`, keyed by the
first column over the second, sum-combine yields `{A: 30, B: 5}`,
mean-combine yields `{A: 15, B: 5}`, and first-value-combine yields
`{A: 10, B: 5}` (first non-missing occurrence in original row order). -/
theorem categorical_combine_example :
    groupSum (chart1Rows [("A", "10"), ("A", "20"), ("B", "5")]) =
      [("A", 30), ("B", 5)] ∧
    groupMean (chart1Rows [("A", "10"), ("A", "20"), ("B", "5")]) =
      [("A", some 15), ("B", some 5)] ∧
    firstCombine (chart1Rows [("A", "10"), ("A", "20"), ("B", "5")]) =
      [("A", 10), ("B", 5)] := by
  have h10 : toNumericOpt "10" = some 10 := by
    simp +decide [toNumericOpt, parseNumeric, cleanCell, natOfDigits]
  have h20 : toNumericOpt "20" = some 20 := by
    simp +decide [toNumericOpt, parseNumeric, cleanCell, natOfDigits]
  have h5 : toNumericOpt "5" = some 5 := by
    simp +decide [toNumericOpt, parseNumeric, cleanCell, natOfDigits]
  have hrows : chart1Rows [("A", "10"), ("A", "20"), ("B", "5")] =
      [("A", some 10), ("A", some 20), ("B", some 5)] := by
    simp [chart1Rows, h10, h20, h5]
  rw [hrows]
  norm_num +decide [groupSum, groupMean, firstCombine, distinctKeys,
    List.insertionSort, List.orderedInsert, dedupFirstAux, dropDupKeys,
    List.filterMap_cons]

/-! ### Top-N truncation (src/app.py lines 239-240 and 358-359) -/

/-- The ordering used by `sort_values(ascending=not order_desc)`: compare by
the value component, descending when `desc`. -/
def seriesRel (desc : Bool) (a b : String × ℚ) : Prop :=
  if desc then b.2 ≤ a.2 else a.2 ≤ b.2

instance seriesRelDecidable (desc : Bool) : DecidableRel (seriesRel desc) :=
  fun a b => by unfold seriesRel; infer_instance

instance seriesRelTotal (desc : Bool) : IsTotal (String × ℚ) (seriesRel desc) where
  total a b := by
    cases desc <;> simp only [seriesRel, if_true, if_false]
    · exact le_total a.2 b.2
    · exact le_total b.2 a.2

instance seriesRelTrans (desc : Bool) : IsTrans (String × ℚ) (seriesRel desc) where
  trans a b c := by
    cases desc <;> simp only [seriesRel, if_true, if_false]
    · exact fun h1 h2 => le_trans h1 h2
    · exact fun h1 h2 => le_trans h2 h1

/-- `s.sort_values(ascending=not order_desc)`: sort the series by value. -/
def sortValues (desc : Bool) (s : List (String × ℚ)) : List (String × ℚ) :=
  List.insertionSort (seriesRel desc) s

/-- `s.sort_values(...).head(top_n)`: sort by value, keep the first `n`. -/
def topN (n : Nat) (desc : Bool) (s : List (String × ℚ)) :
    List (String × ℚ) :=
  (sortValues desc s).take n

/-- C9: Top-N truncation sorts the series by value (per the descending
toggle) and keeps exactly the first `n` entries of that sort order: the
result is sorted, it together with the discarded suffix is a permutation of
the input, every kept value dominates every discarded one, and its length is
`min n (length s)`; in particular, on a five-category series with `n = 2` it
is exactly the two highest (resp. lowest) entries in sorted order. -/
theorem topN_spec (s : List (String × ℚ)) (n : Nat) (desc : Bool) :
    (topN n desc s).length = min n s.length ∧
    (topN n desc s).Pairwise (seriesRel desc) ∧
    (topN n desc s ++ (sortValues desc s).drop n).Perm s ∧
    (∀ a ∈ topN n desc s, ∀ b ∈ (sortValues desc s).drop n,
      seriesRel desc a b) ∧
    topN 2 true [("a", 7), ("b", 3), ("c", 9), ("d", 1), ("e", 5)] =
      [("c", 9), ("a", 7)] ∧
    topN 2 false [("a", 7), ("b", 3), ("c", 9), ("d", 1), ("e", 5)] =
      [("d", 1), ("b", 3)] := by
  have hperm : (sortValues desc s).Perm s := List.perm_insertionSort _ s
  have hsorted : (sortValues desc s).Pairwise (seriesRel desc) :=
    List.sorted_insertionSort _ s
  have hsplit := List.take_append_drop n (sortValues desc s)
  refine ⟨?_, ?_, ?_, ?_, ?_, ?_⟩
  · rw [topN, List.length_take, hperm.length_eq]
  · exact hsorted.sublist (List.take_sublist n _)
  · rw [topN, hsplit]
    exact hperm
  · have h2 : ((sortValues desc s).take n ++
        (sortValues desc s).drop n).Pairwise (seriesRel desc) := by
      rw [hsplit]; exact hsorted
    exact (List.pairwise_append.mp h2).2.2
  · norm_num +decide [topN, sortValues, List.insertionSort,
      List.orderedInsert, seriesRel]
  · norm_num +decide [topN, sortValues, List.insertionSort,
      List.orderedInsert, seriesRel]

lemma mem_dedupFirstAux {a : String} :
    ∀ (seen l : List String), a ∈ dedupFirstAux seen l ↔ a ∈ l ∧ a ∉ seen := by
  intro seen l
  induction l generalizing seen with
  | nil => simp [dedupFirstAux]
  | cons x xs ih =>
    by_cases hx : x ∈ seen
    · rw [dedupFirstAux, if_pos hx, ih seen]
      constructor
      · rintro ⟨h1, h2⟩
        exact ⟨List.mem_cons_of_mem x h1, h2⟩
      · rintro ⟨h1, h2⟩
        rcases List.mem_cons.mp h1 with rfl | h1
        · exact absurd hx h2
        · exact ⟨h1, h2⟩
    · rw [dedupFirstAux, if_neg hx, List.mem_cons, ih (x :: seen)]
      constructor
      · rintro (rfl | ⟨h1, h2⟩)
        · exact ⟨List.mem_cons_self a xs, hx⟩
        · exact ⟨List.mem_cons_of_mem x h1,
            fun hs => h2 (List.mem_cons_of_mem x hs)⟩
      · rintro ⟨h1, h2⟩
        rcases List.mem_cons.mp h1 with rfl | h1
        · exact Or.inl rfl
        · by_cases hax : a = x
          · exact Or.inl hax
          · exact Or.inr ⟨h1, fun hs =>
              (List.mem_cons.mp hs).elim hax h2⟩

lemma mem_of_mem_dropDupKeys {r : String × ℚ} :
    ∀ (seen : List String) (l : List (String × ℚ)),
      r ∈ dropDupKeys seen l → r ∈ l := by
  intro seen l
  induction l generalizing seen with
  | nil => simp [dropDupKeys]
  | cons x xs ih =>
    rw [dropDupKeys]
    split
    · exact fun h => List.mem_cons_of_mem x (ih seen h)
    · intro h
      rcases List.mem_cons.mp h with rfl | h
      · exact List.mem_cons_self r xs
      · exact List.mem_cons_of_mem x (ih _ h)

lemma allMissing_key_categorical (raws : List (String × String))
    (k : String) (hk : k ∈ raws.map Prod.fst)
    (hmiss : ∀ r ∈ raws, r.1 = k → toNumericOpt r.2 = none) :
    (k, (0 : ℚ)) ∈ groupSum (chart1Rows raws) ∧
    k ∉ (firstCombine (chart1Rows raws)).map Prod.fst := by
  obtain ⟨r0, hr0, rfl⟩ := List.mem_map.mp hk
  have hkeys : r0.1 ∈ (chart1Rows raws).map Prod.fst :=
    List.mem_map.mpr ⟨(r0.1, toNumericOpt r0.2),
      List.mem_map.mpr ⟨r0, hr0, rfl⟩, rfl⟩
  constructor
  · have hkd : r0.1 ∈ distinctKeys (chart1Rows raws) :=
      (List.perm_insertionSort _ _).mem_iff.mpr
        ((mem_dedupFirstAux _ _).mpr ⟨hkeys, by simp⟩)
    refine List.mem_map.mpr ⟨r0.1, hkd, ?_⟩
    have hnil : ((chart1Rows raws).filter
        (fun r => decide (r.1 = r0.1))).filterMap Prod.snd = [] := by
      rw [List.filterMap_eq_nil_iff]
      intro r hr
      obtain ⟨hmem, hkey⟩ := List.mem_filter.mp hr
      obtain ⟨r1, hr1, rfl⟩ := List.mem_map.mp hmem
      exact hmiss r1 hr1 (of_decide_eq_true hkey)
    rw [hnil]
    rfl
  · intro hmem
    obtain ⟨p, hp, hpk⟩ := List.mem_map.mp hmem
    have hpin := mem_of_mem_dropDupKeys _ _ hp
    obtain ⟨r1, hr1, hg⟩ := List.mem_filterMap.mp hpin
    obtain ⟨r2, hr2, rfl⟩ := List.mem_map.mp hr1
    cases hv : toNumericOpt r2.2 with
    | none => rw [hv] at hg; exact Option.noConfusion hg
    | some v =>
      rw [hv] at hg
      have hp1 : p.1 = r2.1 := by
        cases hg.symm
        rfl
      have : toNumericOpt r2.2 = none :=
        hmiss r2 hr2 (by rw [← hp1, hpk])
      rw [hv] at this
      exact Option.noConfusion this

/-! ### Date detection and date-bucketed aggregation
(src/app.py lines 266-271, 315-324) -/

/-- A calendar date. -/
structure Date where
  year : Nat
  month : Nat
  day : Nat
deriving DecidableEq

def daysInMonth (y m : Nat) : Nat :=
  if m = 2 then
    if (y % 4 = 0 ∧ y % 100 ≠ 0) ∨ y % 400 = 0 then 29 else 28
  else if m = 4 ∨ m = 6 ∨ m = 9 ∨ m = 11 then 30
  else 31

/-- Split a character list at every `'-'`. -/
def splitDash : List Char → List (List Char)
  | [] => [[]]
  | c :: rest =>
    if c = '-' then [] :: splitDash rest
    else
      match splitDash rest with
      | [] => [[c]]
      | g :: gs => (c :: g) :: gs

/-- Model of `pd.to_datetime` on a single cell, restricted to ISO
`YYYY-MM-DD` text: three dash-separated digit groups forming a valid
calendar date; anything else fails to parse. -/
def parseDate (s : String) : Option Date :=
  match splitDash s.data with
  | [ys, ms, ds] =>
    if ys.isEmpty || ms.isEmpty || ds.isEmpty
        || !(ys ++ ms ++ ds).all isDigitChar then none
    else
      if 1 ≤ natOfDigits ms ∧ natOfDigits ms ≤ 12 ∧ 1 ≤ natOfDigits ds
          ∧ natOfDigits ds ≤ daysInMonth (natOfDigits ys) (natOfDigits ms) then
        some ⟨natOfDigits ys, natOfDigits ms, natOfDigits ds⟩
      else none
  | _ => none

/-- The date test of Gráfico 2 (src/app.py lines 266-271):
`pd.to_datetime(df[x_col], errors="raise")` inside `try/except` — the column
is date-like iff every cell parses; the `except` branch just leaves
`is_date = False`, so disqualification never aborts rendering. -/
def isDateCol (col : List String) : Bool :=
  col.all (fun v => (parseDate v).isSome)

/-- C6: the date test classifies a column as date-like exactly when every
value of the column parses as a calendar date with zero failures — one
unparseable value makes the (total, never-raising) test false. -/
theorem isDateCol_iff (col : List String) :
    isDateCol col = true ↔ ∀ v ∈ col, (parseDate v).isSome = true := by
  rw [isDateCol, List.all_eq_true]

/-- Chronological order on dates (lexicographic on year, month, day,
encoded monotonically). -/
def dateIdx (d : Date) : Nat := (d.year * 13 + d.month) * 32 + d.day

def dateLe (a b : Date) : Prop := dateIdx a ≤ dateIdx b

instance : DecidableRel dateLe := fun a b => Nat.decLe _ _

/-- Month bucket index of a date. -/
def monthIdx (d : Date) : Nat := d.year * 12 + (d.month - 1)

/-- Date-bucketed count aggregation of Gráfico 2 with monthly frequency
(src/app.py lines 315-322): coerce the key column to dates, drop rows whose
key fails to parse, sort ascending, then count rows per calendar month from
the first occupied month to the last (intermediate empty months get count
0, as `pd.Grouper` produces a regular monthly range). Each bucket is
labelled `((year, month), count)`. -/
def chart2CountMonthly (col : List String) : List ((Nat × Nat) × Nat) :=
  let sorted := List.insertionSort dateLe (col.filterMap parseDate)
  match sorted with
  | [] => []
  | d0 :: _ =>
    let lo := monthIdx d0
    let hi := monthIdx (sorted.getLast?.getD d0)
    (List.range (hi + 1 - lo)).map fun i =>
      (((lo + i) / 12, (lo + i) % 12 + 1),
        sorted.countP (fun d => decide (monthIdx d = lo + i)))

/-- C8: monthly count-only bucketing of the rows dated 2023-01-15 and
2023-01-28 yields the single bucket for January 2023 with count 2. -/
theorem monthly_count_example :
    chart2CountMonthly ["2023-01-15", "2023-01-28"] = [((2023, 1), 2)] := by
  decide

/-! ### Date-bucketed sum aggregation (src/app.py lines 306-331) -/

/-- Chronological order on the (date, coerced value) rows of Gráfico 2's
date path, by the date component. -/
def rowDateLe (a b : Date × Option ℚ) : Prop := dateLe a.1 b.1

instance : DecidableRel rowDateLe := fun a b => Nat.decLe _ _

instance : IsTotal (Date × Option ℚ) rowDateLe where
  total a b := Nat.le_total (dateIdx a.1) (dateIdx b.1)

instance : IsTrans (Date × Option ℚ) rowDateLe where
  trans a b c := Nat.le_trans

/-- The two selected columns of the date path after Y-coercion and
`pd.to_datetime(errors="coerce")` + `dropna(subset=[x_col])`: rows whose
key fails to parse are dropped (their coerced Y value is kept even when
missing — only the key column is `dropna`-ed). -/
def prsOf (rows : List (String × String)) : List (Date × Option ℚ) :=
  rows.filterMap (fun r => (parseDate r.1).map (fun d => (d, toNumericOpt r.2)))

/-- The month pair `(year, month)` labelling the bucket of a date. -/
def monthOf (d : Date) : Nat × Nat := (monthIdx d / 12, monthIdx d % 12 + 1)

/-- Last element of `d :: l`. -/
def lastD (d : α) : List α → α
  | [] => d
  | x :: xs => lastD x xs

/-- `groupby(pd.Grouper(key=x_col, freq="M"))[y_col].sum()` on the sorted
rows: one bucket per calendar month from the first occupied month to the
last, each holding the `skipna` sum (`min_count=0`, so 0 for a bucket with
no non-missing value) of the coerced values falling in it. -/
def monthBuckets : List (Date × Option ℚ) → List ((Nat × Nat) × ℚ)
  | [] => []
  | p0 :: rest =>
    (List.range (monthIdx ((lastD p0 rest).1) + 1 - monthIdx p0.1)).map
      fun i =>
        (((monthIdx p0.1 + i) / 12, (monthIdx p0.1 + i) % 12 + 1),
          (((p0 :: rest).filter
              (fun p => decide (monthIdx p.1 = monthIdx p0.1 + i))).filterMap
            Prod.snd).sum)

/-- The date-bucketed sum series of Gráfico 2 with monthly frequency
(src/app.py lines 306-331): coerce Y per cell, parse the key column as
dates dropping unparseable rows, sort ascending by key, then sum the
coerced values per monthly bucket. -/
def chart2SumMonthly (rows : List (String × String)) :
    List ((Nat × Nat) × ℚ) :=
  monthBuckets (List.insertionSort rowDateLe (prsOf rows))

lemma daysInMonth_le_31 (y m : Nat) : daysInMonth y m ≤ 31 := by
  unfold daysInMonth
  split_ifs <;> omega

lemma parseDate_valid {s : String} {d : Date} (h : parseDate s = some d) :
    1 ≤ d.month ∧ d.month ≤ 12 ∧ 1 ≤ d.day ∧ d.day ≤ 31 := by
  unfold parseDate at h
  split at h
  · split at h
    · exact Option.noConfusion h
    · split at h
      · rename_i hguard
        obtain rfl := Option.some.inj h
        obtain ⟨h1, h2, h3, h4⟩ := hguard
        exact ⟨h1, h2, h3, le_trans h4 (daysInMonth_le_31 _ _)⟩
      · exact Option.noConfusion h
  · exact Option.noConfusion h

lemma monthIdx_mono {a b : Date}
    (ha : 1 ≤ a.month ∧ a.month ≤ 12 ∧ 1 ≤ a.day ∧ a.day ≤ 31)
    (hb : 1 ≤ b.month ∧ b.month ≤ 12 ∧ 1 ≤ b.day ∧ b.day ≤ 31)
    (h : dateLe a b) : monthIdx a ≤ monthIdx b := by
  unfold dateLe dateIdx at h
  unfold monthIdx
  omega

lemma lastD_mem : ∀ (q : α) (t : List α), lastD q t ∈ q :: t := by
  intro q t
  induction t generalizing q with
  | nil => simp [lastD]
  | cons y t2 ih =>
    rw [lastD]
    exact List.mem_cons_of_mem q (ih y)

lemma rel_lastD_of_pairwise :
    ∀ (p0 : Date × Option ℚ) (rest : List (Date × Option ℚ)),
      (p0 :: rest).Pairwise rowDateLe → ∀ a ∈ p0 :: rest,
        rowDateLe a (lastD p0 rest) := by
  intro p0 rest
  induction rest generalizing p0 with
  | nil =>
    intro _ a ha
    obtain rfl := List.mem_singleton.mp ha
    exact Nat.le_refl _
  | cons q t ih =>
    intro hp a ha
    show rowDateLe a (lastD q t)
    rcases List.mem_cons.mp ha with rfl | ha2
    · exact (List.pairwise_cons.mp hp).1 _ (lastD_mem q t)
    · exact ih q (List.pairwise_cons.mp hp).2 a ha2

/-- C10: under sum-combine a key group whose coerced values are all missing
is not dropped: it appears with value 0, both in the categorical shape
(`groupby(x)[y].sum()`) and in the date-bucketed shape
(`groupby(Grouper(key=x, freq="M"))[y].sum()`); under first-value-combine
such a key is omitted entirely (its rows are removed by `dropna` before
deduplication). -/
theorem allMissing_key_sum_vs_first (raws : List (String × String))
    (k : String) (hk : k ∈ raws.map Prod.fst)
    (hmiss : ∀ r ∈ raws, r.1 = k → toNumericOpt r.2 = none)
    (drows : List (String × String)) (d0 : Date)
    (hd0 : ∃ r ∈ drows, parseDate r.1 = some d0)
    (hmissD : ∀ r ∈ drows, ∀ d, parseDate r.1 = some d →
      monthOf d = monthOf d0 → toNumericOpt r.2 = none) :
    ((k, (0 : ℚ)) ∈ groupSum (chart1Rows raws) ∧
      k ∉ (firstCombine (chart1Rows raws)).map Prod.fst) ∧
    (monthOf d0, (0 : ℚ)) ∈ chart2SumMonthly drows := by
  refine ⟨allMissing_key_categorical raws k hk hmiss, ?_⟩
  obtain ⟨r0, hr0, hp0⟩ := hd0
  have hperm := List.perm_insertionSort rowDateLe (prsOf drows)
  have hsorted := List.sorted_insertionSort rowDateLe (prsOf drows)
  have hmem : (d0, toNumericOpt r0.2) ∈
      List.insertionSort rowDateLe (prsOf drows) :=
    hperm.mem_iff.mpr (List.mem_filterMap.mpr ⟨r0, hr0, by rw [hp0]; rfl⟩)
  have hvalid : ∀ p ∈ List.insertionSort rowDateLe (prsOf drows),
      1 ≤ p.1.month ∧ p.1.month ≤ 12 ∧ 1 ≤ p.1.day ∧ p.1.day ≤ 31 := by
    intro p hp
    obtain ⟨r, _, hg⟩ := List.mem_filterMap.mp (hperm.mem_iff.mp hp)
    cases hpd : parseDate r.1 with
    | none => rw [hpd] at hg; exact Option.noConfusion hg
    | some d =>
      rw [hpd, Option.map_some'] at hg
      obtain rfl := Option.some.inj hg
      exact parseDate_valid hpd
  cases hts : List.insertionSort rowDateLe (prsOf drows) with
  | nil =>
    rw [hts] at hmem
    exact absurd hmem (List.not_mem_nil _)
  | cons p0 rest =>
    rw [hts] at hperm hsorted hmem hvalid
    unfold chart2SumMonthly
    rw [hts]
    show (monthOf d0, (0 : ℚ)) ∈ monthBuckets (p0 :: rest)
    rw [monthBuckets]
    have hd0v := parseDate_valid hp0
    have hlo : monthIdx p0.1 ≤ monthIdx d0 := by
      rcases List.mem_cons.mp hmem with heq | hmemr
      · rw [show p0.1 = d0 from congrArg Prod.fst heq.symm]
      · have hv1 := hvalid p0 (List.mem_cons_self p0 rest)
        have hrel : rowDateLe p0 (d0, toNumericOpt r0.2) :=
          (List.pairwise_cons.mp hsorted).1 _ hmemr
        exact monthIdx_mono hv1 hd0v hrel
    have hlast := hvalid _ (lastD_mem p0 rest)
    have hrellast : rowDateLe (d0, toNumericOpt r0.2) (lastD p0 rest) :=
      rel_lastD_of_pairwise p0 rest hsorted _ hmem
    have hhi : monthIdx d0 ≤ monthIdx ((lastD p0 rest).1) :=
      monthIdx_mono hd0v hlast hrellast
    refine List.mem_map.mpr
      ⟨monthIdx d0 - monthIdx p0.1, List.mem_range.mpr (by omega), ?_⟩
    have hidx : monthIdx p0.1 + (monthIdx d0 - monthIdx p0.1) =
        monthIdx d0 := by omega
    rw [hidx]
    have hsum : ((p0 :: rest).filter
        (fun p => decide (monthIdx p.1 = monthIdx d0))).filterMap
          Prod.snd = [] := by
      rw [List.filterMap_eq_nil_iff]
      intro p hp
      obtain ⟨hpmem, hpidx⟩ := List.mem_filter.mp hp
      obtain ⟨r, hr, hg⟩ := List.mem_filterMap.mp (hperm.mem_iff.mp hpmem)
      cases hpd : parseDate r.1 with
      | none => rw [hpd] at hg; exact Option.noConfusion hg
      | some d =>
        rw [hpd, Option.map_some'] at hg
        obtain rfl := Option.some.inj hg
        have : monthOf d = monthOf d0 := by
          unfold monthOf
          rw [of_decide_eq_true hpidx]
        exact hmissD r hr d hpd this
    rw [hsum]
    rfl

/-- Witness for C10 at concrete inputs: in the categorical shape, key "A"
has only the unparseable value "abc" — sum-combine keeps it with value 0
and first-value-combine drops it; in the date-bucketed shape, the January
2023 bucket holds only the unparseable value "abc" and still appears with
sum 0. -/
theorem allMissing_key_sum_vs_first_witness :
    (("A", (0 : ℚ)) ∈ groupSum (chart1Rows [("A", "abc"), ("B", "5")]) ∧
      "A" ∉ (firstCombine (chart1Rows [("A", "abc"), ("B", "5")])).map
        Prod.fst) ∧
    (monthOf ⟨2023, 1, 15⟩, (0 : ℚ)) ∈
      chart2SumMonthly [("2023-01-15", "abc")] :=
  allMissing_key_sum_vs_first [("A", "abc"), ("B", "5")] "A"
    (by decide) (by decide)
    [("2023-01-15", "abc")] ⟨2023, 1, 15⟩
    ⟨("2023-01-15", "abc"), List.mem_singleton.mpr rfl, by decide⟩
    (by
      intro r hr d hd hm
      obtain rfl := List.mem_singleton.mp hr
      decide)

end App
